import Mathlib

/-
Verification development for the kirka-py chat bot's message-ingestion and
command-dispatch pipeline.

The model is a shallow embedding of:
  - src/models/ctx.py   (CommandContext: command-name parsing, reply rendering)
  - src/utils/cooldown.py (CooldownController over an expiring dict)
  - src/utils/response.py (CommandResponse error formatting)
  - src/bot.py          (KirkaBot: registry, blacklists, handle_message,
                         _process_single_message, _execute_command)

Text is modelled as `List Char` (Python str).  Python's `str.lower` is
modelled per-character on the ASCII range (the only range the claims are
about).  Time is a `Nat` parameter threaded through the dispatch functions
(`time.time()`), and the third-party `expiringdict.ExpiringDict` is modelled
as an insertion-ordered association list whose reads check entry age.
Handler behaviour is a parameter: a handler either succeeds or raises with a
message; the trace of a dispatch records handler invocations and the texts
handed to `ctx.reply`.
-/

/-- Python `str` for the purposes of this model. -/
abbrev Str := List Char

/-- Whitespace as used by Python's `str.split()` / `str.strip()`
(ASCII fragment; the claims only exercise spaces). -/
def isWs (c : Char) : Bool := c.isWhitespace

/-- `content.startswith(pat)` (pattern first). -/
def strStarts : Str → Str → Bool
  | [], _ => true
  | _ :: _, [] => false
  | p :: ps, c :: cs => p == c && strStarts ps cs

/-- Python `str.strip()`: drop whitespace from both ends. -/
def trimStr (s : Str) : Str :=
  ((s.dropWhile isWs).reverse.dropWhile isWs).reverse

/-- Python `str.split()` with no argument: split on runs of whitespace,
discarding empty pieces. -/
def wsplit : Str → List Str
  | [] => []
  | c :: cs =>
    if isWs c then wsplit cs
    else
      match cs with
      | [] => [[c]]
      | d :: _ =>
        if isWs d then [c] :: wsplit cs
        else
          match wsplit cs with
          | [] => [[c]]
          | w :: ws => (c :: w) :: ws

/-- Python `str.lower()` on one character, ASCII range (codes 65–90 map to
97–122, everything else unchanged) — exactly what the dispatched command
names exercise. -/
def lowerChar (c : Char) : Char :=
  if 65 ≤ c.toNat && c.toNat ≤ 90 then Char.ofNat (c.toNat + 32) else c

/-- `CommandContext._parse_command_name` (src/models/ctx.py:23-27):
if the content starts with the configured prefix, the command name is the
lower-cased first whitespace-delimited token of the remainder, else `''`. -/
def parseCommandName (pfx content : Str) : Str :=
  if strStarts pfx content then
    match wsplit (content.drop pfx.length) with
    | [] => []
    | w :: _ => w.map lowerChar
  else []

/-- The argument string computed in `KirkaBot._execute_command`
(src/bot.py:137): `ctx.content[len(self.prefix + cmd_name):].strip()` —
drop `len(prefix) + len(cmd_name)` characters, then strip. -/
def commandArgs (pfx content cmdName : Str) : Str :=
  trimStr (content.drop (pfx.length + cmdName.length))

/-- One entry of an `expiringdict.ExpiringDict`: the key, the time the
entry was (re)written, and the stored value. -/
structure EDEntry (α : Type) where
  key : Str
  insertTime : Nat
  value : α
deriving DecidableEq

/-- `expiringdict.ExpiringDict` modelled as an insertion-ordered
association list (oldest entry first). -/
abbrev EDict (α : Type) : Type := List (EDEntry α)

/-- The raw (age-ignoring) lookup underlying the ordered dict. -/
def edFind (d : EDict α) (k : Str) : Option (EDEntry α) :=
  List.find? (fun e => e.key == k) d

/-- `ExpiringDict.get` / `__getitem__`: the stored value, provided the entry
was written less than `maxAge` time units ago (`time.time() - item[1] <
self.max_age`, strict). -/
def edGet (maxAge : Nat) (d : EDict α) (k : Str) (now : Nat) : Option α :=
  match edFind d k with
  | some e => if now - e.insertTime < maxAge then some e.value else none
  | none => none

/-- `key in`-style membership: an unexpired entry exists. -/
def edContains (maxAge : Nat) (d : EDict α) (k : Str) (now : Nat) : Bool :=
  (edGet maxAge d k now).isSome

/-- `ExpiringDict.__setitem__`: when the dict is at capacity, delete the key
being written if it is (live) present, otherwise pop the oldest entry; then
write `(value, now)` under the key (refreshing the timestamp of an existing
entry in place). -/
def edSet (maxAge maxLen : Nat) (d : EDict α) (k : Str) (v : α) (now : Nat) :
    EDict α :=
  let d1 : List (EDEntry α) :=
    if d.length == maxLen then
      if edContains maxAge d k now then List.filter (fun e => !(e.key == k)) d
      else d.drop 1
    else d
  if d1.any (fun e => e.key == k) then
    d1.map (fun e => if e.key == k then ⟨k, now, v⟩ else e)
  else d1 ++ [⟨k, now, v⟩]

/-- `f"{user_id}:{command}"` — the key of a cooldown entry
(src/utils/cooldown.py). -/
def cooldownKey (userId command : Str) : Str := userId ++ ":".data ++ command

/-- The cooldown window: `ExpiringDict(max_len=100, max_age_seconds=5)`
(src/utils/cooldown.py:6). -/
def cooldownWindow : Nat := 5

/-- The cooldown table capacity (`max_len=100`). -/
def cooldownMaxLen : Nat := 100

/-- The state of a `CooldownController`: its expiring dict, mapping
`user:command` keys to stored expiry timestamps. -/
abbrev Cooldowns : Type := EDict Nat

/-- `CooldownController.check` (src/utils/cooldown.py:8-10): `key in
self.cooldowns`. -/
def cooldownCheck (cd : Cooldowns) (userId command : Str) (now : Nat) : Bool :=
  edContains cooldownWindow cd (cooldownKey userId command) now

/-- `CooldownController.remaining` (src/utils/cooldown.py:12-14):
`self.cooldowns[key] - time.time()`.  In the source this raises `KeyError`
when the entry is absent; the dispatcher only calls it after a successful
`check`, so the model totalises the absent case with 0. -/
def cooldownRemaining (cd : Cooldowns) (userId command : Str) (now : Nat) :
    Nat :=
  match edGet cooldownWindow cd (cooldownKey userId command) now with
  | some v => v - now
  | none => 0

/-- `CooldownController.update` (src/utils/cooldown.py:16-18):
`self.cooldowns[key] = time.time() + self.cooldowns.max_age`. -/
def cooldownUpdate (cd : Cooldowns) (userId command : Str) (now : Nat) :
    Cooldowns :=
  edSet cooldownWindow cooldownMaxLen cd (cooldownKey userId command)
    (now + cooldownWindow) now

/-- A registered command: `cmd_info` of `KirkaBot.command`
(src/bot.py:31-36).  The handler function is identified by a numeric id,
interpreted by the handler-behaviour parameter of the dispatch
environment. -/
structure CmdInfo where
  fn : Nat
  description : Str
  aliases : List Str
  hidden : Bool
deriving DecidableEq

/-- `self.commands`: a Python dict modelled as an association list where
insertion prepends and lookup takes the first match (so later insertions
shadow earlier ones, as dict assignment overwrites). -/
abbrev Registry := List (Str × CmdInfo)

/-- The registration performed by the `KirkaBot.command` decorator
(src/bot.py:37-39): insert the descriptor under the command name and then
under every alias, all mapping to the same `cmd_info`. -/
def registerCommand (r : Registry) (name : Str) (info : CmdInfo) : Registry :=
  info.aliases.foldl (fun acc a => (a, info) :: acc) ((name, info) :: r)

/-- The `'user'` sub-dict of a raw chat message; each field may be absent
(`.get(..., default)` in the normalizer). -/
structure RawUser where
  uid : Option Str
  shortId : Option Str
  uname : Option Str
  role : Option Str
  level : Option Nat
deriving DecidableEq

/-- A raw decoded frame / sub-message, as consumed by
`KirkaBot.handle_message` and `_process_single_message`: a `type`
discriminant, a `message` text, a `user` dict (whose absence makes
`message['user']` raise `KeyError`), and, for bundles, a `messages` list. -/
inductive RawMessage where
  | mk : Option Int → Option Str → Option RawUser → Option (List RawMessage) →
      RawMessage

/-- `message.get('type')`. -/
def RawMessage.mtype : RawMessage → Option Int
  | .mk t _ _ _ => t

/-- `message.get('message', '')`'s underlying optional text. -/
def RawMessage.message : RawMessage → Option Str
  | .mk _ m _ _ => m

/-- `message['user']`, which may be absent. -/
def RawMessage.user : RawMessage → Option RawUser
  | .mk _ _ u _ => u

/-- `message.get('messages')` of a bundle frame. -/
def RawMessage.messages : RawMessage → Option (List RawMessage)
  | .mk _ _ _ ms => ms

/-- The normalized author record (`normalized_message['author']` in
`_process_single_message`, re-exposed by `CommandContext._create_author`). -/
structure Author where
  id : Str
  shortId : Str
  name : Str
  role : Str
  level : Nat
deriving DecidableEq

/-- Field-defaulting normalization of `message['user']`
(src/bot.py:87-93). -/
def normAuthor (u : RawUser) : Author :=
  { id := u.uid.getD []
    shortId := u.shortId.getD []
    name := u.uname.getD []
    role := u.role.getD []
    level := u.level.getD 0 }

/-- An observable step of a dispatch: either the dispatcher handed a text to
`ctx.reply`, or it invoked a handler with an argument string. -/
inductive Act where
  | reply : Str → Act
  | invoke : Nat → Str → Act
deriving DecidableEq

/-- `CommandContext.reply` without `raw=True` (src/models/ctx.py:35-39):
the text put on the wire is the author's short id, the fixed separator, and
the reply text. -/
def renderReply (a : Author) (text : Str) : Str :=
  a.shortId ++ " -|- ".data ++ text

/-- `CommandResponse().add_error(f"{e}\n```\n{tb}```").build()`
(src/utils/response.py): a single line, so `build`'s `" -|- ".join` returns
it unchanged. -/
def errorReply (e tb : Str) : Str :=
  "❌ Error: ".data ++ e ++ "\n```\n".data ++ tb ++ "```".data

/-- Reply text of `_execute_command`'s dead unregistered-command branch. -/
def notFoundMsg : Str := "Command not found.".data

/-- Reply text for a notified-blacklisted user (src/bot.py:112). -/
def blacklistedMsg : Str := "Blacklisted".data

/-- Reply text for a command-tier-blacklisted user (src/bot.py:114). -/
def cmdBlacklistedMsg : Str := "Blacklisted from using this command.".data

/-- Cooldown-gate reply (src/bot.py:133).  The model's integral clock makes
`round(remaining, 2)` print as the plain number. -/
def cooldownMsg (remaining : Nat) : Str :=
  "Command on cooldown. Wait ".data ++ (toString remaining).data ++ "s".data

/-- Max age and capacity of the per-command blacklist tier:
`ExpiringDict(max_len=1000, max_age_seconds=3600)` (src/bot.py:23). -/
def cmdBlacklistAge : Nat := 3600

/-- The dispatch environment: configuration and state that
`_process_single_message` reads but does not write — the prefix, the command
registry, the three blacklist structures, the behaviour of the registered
handler functions (`none` = the handler returns, `some e` = it raises with
message `e`), and the traceback text rendered into error replies. -/
structure DispatchEnv where
  pfx : Str
  commands : Registry
  blSilent : List Str
  blNotified : List Str
  blCommand : EDict (List Str)
  hb : Nat → Str → Option Str
  tb : Str

/-- `KirkaBot._check_blacklists` (src/bot.py:151-158): silent set first,
then notified set, then the per-command expiring set; Python's `False`
result is modelled as 0 (it compares unequal to 1, 2 and 3 exactly as
`False` does). -/
def checkBlacklists (env : DispatchEnv) (userId commandName : Str)
    (now : Nat) : Nat :=
  if userId ∈ env.blSilent then 1
  else if userId ∈ env.blNotified then 2
  else if userId ∈ (edGet cmdBlacklistAge env.blCommand commandName now).getD []
    then 3
  else 0

/-- `KirkaBot._execute_command` (src/bot.py:123-146): the (dead) registry
re-check, the cooldown gate, handler invocation, cooldown refresh on
success, and the caught-failure error reply. -/
def executeCommand (env : DispatchEnv) (cd : Cooldowns) (author : Author)
    (content cmdName : Str) (now : Nat) : List Act × Cooldowns :=
  match List.lookup cmdName env.commands with
  | none => ([Act.reply notFoundMsg], cd)
  | some cmd =>
    if cooldownCheck cd author.id cmdName now then
      ([Act.reply (cooldownMsg (cooldownRemaining cd author.id cmdName now))],
        cd)
    else
      let args := commandArgs env.pfx content cmdName
      match env.hb cmd.fn args with
      | none => ([Act.invoke cmd.fn args], cooldownUpdate cd author.id cmdName now)
      | some e => ([Act.invoke cmd.fn args, Act.reply (errorReply e env.tb)], cd)

/-- The body of `KirkaBot._process_single_message` after the author has been
normalized (src/bot.py:99-116): the prefix check, the blacklist verdict on
`ctx.author.short_id`, and the registered-command branch. -/
def dispatchPrefixed (env : DispatchEnv) (cd : Cooldowns) (author : Author)
    (content : Str) (now : Nat) : List Act × Cooldowns :=
  if strStarts env.pfx content then
    let cmdName := parseCommandName env.pfx content
    let bl := checkBlacklists env author.shortId cmdName now
    if bl == 1 then ([], cd)
    else if (List.lookup cmdName env.commands).isSome then
      if bl == 2 then ([Act.reply blacklistedMsg], cd)
      else if bl == 3 then ([Act.reply cmdBlacklistedMsg], cd)
      else executeCommand env cd author content cmdName now
    else ([], cd)
  else ([], cd)

/-- `KirkaBot._process_single_message` (src/bot.py:82-121).  The Boolean
records whether the call raised: in the typed model the only raising access
is `message['user']` on a message without a user dict (`KeyError`), which
the handler prints and re-raises before any action is taken. -/
def processSingleMessage (env : DispatchEnv) (cd : Cooldowns)
    (raw : RawMessage) (now : Nat) : List Act × Cooldowns × Bool :=
  match raw.user with
  | none => ([], cd, true)
  | some u =>
    let r := dispatchPrefixed env cd (normAuthor u) (raw.message.getD []) now
    (r.1, r.2, false)

/-- The `for bundled_msg in message['messages']` loop of `handle_message`
(src/bot.py:66-67).  A raising sub-message propagates out of the loop to the
frame-level `except`, so the remaining sub-messages are not processed. -/
def processBundle (env : DispatchEnv) : Cooldowns → List RawMessage → Nat →
    List Act × Cooldowns
  | cd, [], _ => ([], cd)
  | cd, m :: ms, now =>
    let r := processSingleMessage env cd m now
    if r.2.2 then (r.1, r.2.1)
    else
      let rest := processBundle env r.2.1 ms now
      (r.1 ++ rest.1, rest.2)

/-- The type dispatch of `handle_message` (src/bot.py:61-80): type 3 runs
the bundle loop, type 2 and unknown types attempt the frame as a single
message; every raise is caught at this level, so a frame never propagates a
failure. -/
def processFrame (env : DispatchEnv) (cd : Cooldowns) (raw : RawMessage)
    (now : Nat) : List Act × Cooldowns :=
  match raw.mtype with
  | some 3 =>
    match raw.messages with
    | some ms => processBundle env cd ms now
    | none => ([], cd)
  | some 2 =>
    let r := processSingleMessage env cd raw now
    (r.1, r.2.1)
  | _ =>
    let r := processSingleMessage env cd raw now
    (r.1, r.2.1)

/-- The mutable bot state threaded between frames: the
`discarded_first_message` flag (src/bot.py:25) and the cooldown table. -/
structure BotState where
  discardedFirst : Bool
  cooldowns : Cooldowns
deriving DecidableEq

/-- `KirkaBot.handle_message` (src/bot.py:52-80): the very first frame only
flips `discarded_first_message` and is otherwise ignored; later frames are
processed by type. -/
def handleMessage (env : DispatchEnv) (st : BotState) (raw : RawMessage)
    (now : Nat) : List Act × BotState :=
  if st.discardedFirst then
    let r := processFrame env st.cooldowns raw now
    (r.1, ⟨true, r.2⟩)
  else ([], ⟨true, st.cooldowns⟩)

/-- The frame stream: feed each arriving frame (with its arrival time) to
`handle_message`, accumulating the trace. -/
def runFrames (env : DispatchEnv) : BotState → List (RawMessage × Nat) →
    List Act × BotState
  | st, [] => ([], st)
  | st, (f, t) :: rest =>
    let r := handleMessage env st f t
    let more := runFrames env r.2 rest
    (r.1 ++ more.1, more.2)

/-- Follows the spec's wording (§4.3) for the argument string: the content
with the prefix and then the command-name token stripped from the front,
then whitespace-trimmed.  Kept separate from `commandArgs` (the code's
length-based slice) so the two can be compared. -/
def specArgString (pfx content : Str) : Str :=
  let rem := content.drop pfx.length
  let tok := (wsplit rem).headD []
  trimStr (if strStarts tok rem then rem.drop tok.length else rem)

/-- Follows the spec's wording (§4.1/§8) for batch processing: every
sub-message of a bundle is dispatched independently, in order, no matter
what happened to earlier sub-messages. -/
def bundleNoAbort (env : DispatchEnv) : Cooldowns → List RawMessage → Nat →
    List Act × Cooldowns
  | cd, [], _ => ([], cd)
  | cd, m :: ms, now =>
    let r := processSingleMessage env cd m now
    let rest := bundleNoAbort env r.2.1 ms now
    (r.1 ++ rest.1, rest.2)

/-- `True` when the string holds an ASCII uppercase letter. -/
def hasUpper (s : Str) : Bool := s.any (fun c => 65 ≤ c.toNat && c.toNat ≤ 90)

/-- A handler behaviour under which every handler returns normally. -/
def okHb : Nat → Str → Option Str := fun _ _ => none

/-- A handler behaviour under which every handler raises with message
`"E"`. -/
def errHb : Nat → Str → Option Str := fun _ _ => some "E".data

/-- The descriptor of a plain `ping` command (handler id 0, no aliases). -/
def pingInfo : CmdInfo := ⟨0, [], [], false⟩

/-- Prefix `"."`, one registered command `ping`, empty blacklists,
handlers succeed. -/
def basePingEnv : DispatchEnv :=
  ⟨".".data, [("ping".data, pingInfo)], [], [], [], okHb, []⟩

/-- Like `basePingEnv` but with `"sid"` on the silent blacklist. -/
def silentSidEnv : DispatchEnv :=
  ⟨".".data, [("ping".data, pingInfo)], ["sid".data], [], [], okHb, []⟩

/-- Like `basePingEnv` but with `"uid"` on the silent blacklist. -/
def silentUidEnv : DispatchEnv :=
  ⟨".".data, [("ping".data, pingInfo)], ["uid".data], [], [], okHb, []⟩

/-- Like `basePingEnv` but with `"sid"` on both the silent and the
notified blacklists. -/
def bothTiersEnv : DispatchEnv :=
  ⟨".".data, [("ping".data, pingInfo)], ["sid".data], ["sid".data], [],
   okHb, []⟩

/-- Like `basePingEnv` but handlers raise, with traceback text `"TB"`. -/
def errEnv : DispatchEnv :=
  ⟨".".data, [("ping".data, pingInfo)], [], [], [], errHb, "TB".data⟩

/-- A user whose canonical id is `"uid"` and short id `"sid"`. -/
def stdUser : RawUser := ⟨some "uid".data, some "sid".data, none, none, none⟩

/-- A type-2 frame carrying `".ping"` from `stdUser`. -/
def pingMsg : RawMessage :=
  RawMessage.mk (some 2) (some ".ping".data) (some stdUser) none

/-- A type-2 frame carrying the unregistered `".nosuch"` from `stdUser`. -/
def nosuchMsg : RawMessage :=
  RawMessage.mk (some 2) (some ".nosuch".data) (some stdUser) none

/-- A malformed sub-message: no `user` dict, so normalization raises. -/
def badMsg : RawMessage := RawMessage.mk (some 2) (some ".ping".data) none none

/-- A type-3 bundle whose first sub-message is malformed and whose second is
a well-formed `".ping"`. -/
def bundleMsg : RawMessage :=
  RawMessage.mk (some 3) none none (some [badMsg, pingMsg])

example : parseCommandName ".".data ".foo  bar baz".data = "foo".data := by decide
example : commandArgs ".".data ".foo  bar baz".data "foo".data = "bar baz".data := by decide
example : parseCommandName ".".data ". foo x".data = "foo".data := by decide
example : commandArgs ".".data ". foo x".data "foo".data = "o x".data := by decide
example : parseCommandName ".".data ".FOO Bar".data = "foo".data := by decide
example : wsplit "  a  bc ".data = ["a".data, "bc".data] := by decide

/-- The result of `lowerChar` is never an ASCII uppercase letter. -/
theorem lowerChar_not_upper (c : Char) :
    (65 ≤ (lowerChar c).toNat && (lowerChar c).toNat ≤ 90) = false := by
  unfold lowerChar
  split
  · rename_i h
    simp only [Bool.and_eq_true, decide_eq_true_eq] at h
    obtain ⟨h1, h2⟩ := h
    generalize c.toNat = n at h1 h2 ⊢
    interval_cases n <;> decide
  · rename_i h
    simpa using h

/-- A string starts with itself followed by anything. -/
theorem strStarts_append (p s : Str) : strStarts p (p ++ s) = true := by
  induction p with
  | nil => rfl
  | cons c cs ih => simp [strStarts, ih]

/-- Unfolding `wsplit` at two leading non-whitespace characters. -/
theorem wsplit_cons_cons (x y : Char) (t : Str) (hx : isWs x = false)
    (hy : isWs y = false) :
    wsplit (x :: y :: t) =
      match wsplit (y :: t) with
      | [] => [[x]]
      | w :: ws => (x :: w) :: ws := by
  conv_lhs => rw [wsplit]
  rw [if_neg (by simp [hx]), if_neg (by simp [hy])]

/-- `wsplit` of a single non-whitespace character. -/
theorem wsplit_single (x : Char) (hx : isWs x = false) : wsplit [x] = [[x]] := by
  rw [wsplit]
  rw [if_neg (by simp [hx])]

/-- Unfolding `wsplit` at a word boundary. -/
theorem wsplit_cons_ws (x d : Char) (rs : Str) (hx : isWs x = false)
    (hd : isWs d = true) :
    wsplit (x :: d :: rs) = [x] :: wsplit (d :: rs) := by
  conv_lhs => rw [wsplit]
  rw [if_neg (by simp [hx]), if_pos (by simp [hd])]

/-- A nonempty run of non-whitespace characters followed by nothing or by a
whitespace character is the first word `wsplit` produces. -/
theorem wsplit_token (tok rest : Str) (hne : tok ≠ [])
    (hnw : ∀ c ∈ tok, isWs c = false)
    (hrest : rest = [] ∨ ∃ d rs, rest = d :: rs ∧ isWs d = true) :
    wsplit (tok ++ rest) = tok :: wsplit rest := by
  induction tok with
  | nil => exact absurd rfl hne
  | cons x t ih =>
    have hx : isWs x = false := hnw x (List.mem_cons_self x t)
    cases t with
    | nil =>
      rcases hrest with h | ⟨d, rs, hr, hd⟩
      · subst h
        simpa [wsplit] using wsplit_single x hx
      · subst hr
        simpa using wsplit_cons_ws x d rs hx hd
    | cons y t2 =>
      have hy : isWs y = false := hnw y (by simp)
      have ih2 := ih (by simp) (fun c hc => hnw c (List.mem_cons_of_mem x hc))
      have step := wsplit_cons_cons x y (t2 ++ rest) hx hy
      simp only [List.cons_append] at ih2 ⊢
      rw [step, ih2]

/-- A successful association-list lookup is a member of the list. -/
theorem lookup_mem {α β : Type} [BEq α] [LawfulBEq α] (l : List (α × β))
    (k : α) (v : β) (h : List.lookup k l = some v) : (k, v) ∈ l := by
  induction l with
  | nil => simp [List.lookup] at h
  | cons p t ih =>
    obtain ⟨a, b⟩ := p
    cases hab : k == a with
    | true =>
      simp only [List.lookup, hab] at h
      cases h
      have hka : k = a := eq_of_beq hab
      subst hka
      exact List.mem_cons_self _ _
    | false =>
      simp only [List.lookup, hab] at h
      exact List.mem_cons_of_mem _ (ih h)

/-- Lookup hits a freshly prepended binding. -/
theorem lookup_cons_self {α β : Type} [BEq α] [LawfulBEq α] (l : List (α × β))
    (k : α) (v : β) : List.lookup k ((k, v) :: l) = some v := by
  simp [List.lookup]

/-- Lookup passes over a binding with a different key. -/
theorem lookup_cons_ne {α β : Type} [BEq α] [LawfulBEq α] (l : List (α × β))
    (a k : α) (v : β) (h : (k == a) = false) :
    List.lookup k ((a, v) :: l) = List.lookup k l := by
  simp only [List.lookup, h]

/-- Folding identical-descriptor insertions over a list of names: every
inserted name (and every key that already resolved to the descriptor)
resolves to the descriptor. -/
theorem lookup_foldl_same (info : CmdInfo) (as : List Str) (acc : Registry)
    (k : Str) (h : k ∈ as ∨ List.lookup k acc = some info) :
    List.lookup k (as.foldl (fun acc a => (a, info) :: acc) acc) = some info := by
  induction as generalizing acc with
  | nil =>
    rcases h with h | h
    · simp at h
    · simpa using h
  | cons a t ih =>
    simp only [List.foldl_cons]
    apply ih
    by_cases hk : k = a
    · right
      subst hk
      exact lookup_cons_self acc k info
    · rcases h with h | h
      · rcases List.mem_cons.1 h with h1 | h1
        · exact absurd h1 hk
        · exact Or.inl h1
      · right
        rw [lookup_cons_ne acc a k info (beq_eq_false_iff_ne.2 hk)]
        exact h

/-- After `registerCommand`, the canonical name and every alias resolve to
the registered descriptor. -/
theorem resolve_registerCommand (r : Registry) (name : Str) (info : CmdInfo)
    (k : Str) (h : k = name ∨ k ∈ info.aliases) :
    List.lookup k (registerCommand r name info) = some info := by
  unfold registerCommand
  apply lookup_foldl_same
  rcases h with h | h
  · right
    subst h
    exact lookup_cons_self r k info
  · exact Or.inl h

/-- After `edSet`, every entry carrying the written key is the freshly
written entry. -/
theorem edSet_key_eq {α : Type} (maxAge maxLen : Nat) (d : EDict α) (k : Str)
    (v : α) (now : Nat) (e : EDEntry α)
    (he : e ∈ edSet maxAge maxLen d k v now) (hk : e.key = k) :
    e = ⟨k, now, v⟩ := by
  unfold edSet at he
  set d1 : List (EDEntry α) :=
    if d.length == maxLen then
      if edContains maxAge d k now then List.filter (fun e => !(e.key == k)) d
      else d.drop 1
    else d with hd1
  by_cases hany : d1.any (fun e => e.key == k) = true
  · simp only [hany, if_true] at he
    obtain ⟨x, hx, hfx⟩ := List.mem_map.1 he
    by_cases hxk : (x.key == k) = true
    · rw [if_pos hxk] at hfx
      exact hfx.symm
    · rw [if_neg hxk] at hfx
      subst hfx
      exact absurd (beq_iff_eq.2 hk) hxk
  · simp only [hany, if_false] at he
    rcases List.mem_append.1 he with h1 | h1
    · apply absurd _ hany
      rw [List.any_eq_true]
      exact ⟨e, h1, beq_iff_eq.2 hk⟩
    · simpa using h1

/-- After `edSet`, an entry carrying the written key exists. -/
theorem edSet_key_exists {α : Type} (maxAge maxLen : Nat) (d : EDict α)
    (k : Str) (v : α) (now : Nat) :
    ∃ e ∈ edSet maxAge maxLen d k v now, e.key = k := by
  unfold edSet
  set d1 : List (EDEntry α) :=
    if d.length == maxLen then
      if edContains maxAge d k now then List.filter (fun e => !(e.key == k)) d
      else d.drop 1
    else d with hd1
  by_cases hany : d1.any (fun e => e.key == k) = true
  · simp only [hany, if_true]
    obtain ⟨x, hx, hxk⟩ := List.any_eq_true.1 hany
    refine ⟨⟨k, now, v⟩, ?_, rfl⟩
    exact List.mem_map.2 ⟨x, hx, by rw [if_pos hxk]⟩
  · simp only [hany, if_false]
    exact ⟨⟨k, now, v⟩, List.mem_append_right _ (List.mem_singleton.2 rfl), rfl⟩

/-- The ordered-dict lookup after `edSet` finds the freshly written entry,
timestamped with the write time. -/
theorem edFind_edSet_self {α : Type} (maxAge maxLen : Nat) (d : EDict α)
    (k : Str) (v : α) (now : Nat) :
    edFind (edSet maxAge maxLen d k v now) k = some ⟨k, now, v⟩ := by
  obtain ⟨e, he, hk⟩ := edSet_key_exists maxAge maxLen d k v now
  have hsome : (edFind (edSet maxAge maxLen d k v now) k).isSome := by
    unfold edFind
    rw [List.find?_isSome]
    exact ⟨e, he, beq_iff_eq.2 hk⟩
  obtain ⟨e2, he2⟩ := Option.isSome_iff_exists.1 hsome
  unfold edFind at he2
  have hmem : e2 ∈ edSet maxAge maxLen d k v now := List.mem_of_find?_eq_some he2
  have hkey : e2.key = k := by
    have h3 := @List.find?_some _ (fun e => e.key == k) e2 _ he2
    simpa using h3
  unfold edFind
  rw [he2, edSet_key_eq maxAge maxLen d k v now e2 hmem hkey]

/-- Reading back the written key after `edSet`: the stored value while the
entry's age is under `maxAge`, nothing afterwards. -/
theorem edGet_edSet_self {α : Type} (maxAge maxLen : Nat) (d : EDict α)
    (k : Str) (v : α) (now later : Nat) :
    edGet maxAge (edSet maxAge maxLen d k v now) k later =
      if later - now < maxAge then some v else none := by
  unfold edGet
  rw [edFind_edSet_self]

/-- A parsed command name never holds an ASCII uppercase letter. -/
theorem parseCommandName_no_upper (pfx content : Str) :
    hasUpper (parseCommandName pfx content) = false := by
  unfold parseCommandName
  split
  · split
    · rfl
    · rename_i w ws heq
      unfold hasUpper
      rw [List.any_map]
      rw [List.any_eq_false]
      intro c hc
      simp only [Function.comp_apply]
      simp [lowerChar_not_upper c]
  · rfl

/-- `_process_single_message` on a message whose `user` dict is present:
normalize the author and run the prefixed-dispatch body; no raise. -/
theorem processSingleMessage_user_some (env : DispatchEnv) (cd : Cooldowns)
    (raw : RawMessage) (now : Nat) (u : RawUser)
    (hu : RawMessage.user raw = some u) :
    processSingleMessage env cd raw now =
      ((dispatchPrefixed env cd (normAuthor u)
          ((RawMessage.message raw).getD []) now).1,
       (dispatchPrefixed env cd (normAuthor u)
          ((RawMessage.message raw).getD []) now).2,
       false) := by
  unfold processSingleMessage
  rw [hu]

/-- `_process_single_message` on a message without a `user` dict:
`KeyError`, printed and re-raised before any action. -/
theorem processSingleMessage_user_none (env : DispatchEnv) (cd : Cooldowns)
    (raw : RawMessage) (now : Nat) (hu : RawMessage.user raw = none) :
    processSingleMessage env cd raw now = ([], cd, true) := by
  unfold processSingleMessage
  rw [hu]

/-- A message that does not start with the prefix is dropped silently. -/
theorem dispatchPrefixed_no_pfx (env : DispatchEnv) (cd : Cooldowns)
    (author : Author) (content : Str) (now : Nat)
    (hp : strStarts env.pfx content = false) :
    dispatchPrefixed env cd author content now = ([], cd) := by
  unfold dispatchPrefixed
  rw [hp]
  rfl

/-- Blacklist verdict 1 (silent tier) drops the message with no action. -/
theorem dispatchPrefixed_silent (env : DispatchEnv) (cd : Cooldowns)
    (author : Author) (content : Str) (now : Nat)
    (hp : strStarts env.pfx content = true)
    (hbl : checkBlacklists env author.shortId
      (parseCommandName env.pfx content) now = 1) :
    dispatchPrefixed env cd author content now = ([], cd) := by
  simp [dispatchPrefixed, hp, hbl]

/-- An unregistered command name falls through the
`if ctx.command_name in self.commands` guard: no action at all. -/
theorem dispatchPrefixed_unregistered (env : DispatchEnv) (cd : Cooldowns)
    (author : Author) (content : Str) (now : Nat)
    (hp : strStarts env.pfx content = true)
    (hbl : checkBlacklists env author.shortId
      (parseCommandName env.pfx content) now ≠ 1)
    (hlk : List.lookup (parseCommandName env.pfx content) env.commands = none) :
    dispatchPrefixed env cd author content now = ([], cd) := by
  simp [dispatchPrefixed, hp, hlk, beq_eq_false_iff_ne.2 hbl]

/-- With verdict `None` (0) and a registered name, dispatch reaches
`_execute_command`. -/
theorem dispatchPrefixed_exec (env : DispatchEnv) (cd : Cooldowns)
    (author : Author) (content : Str) (now : Nat) (info : CmdInfo)
    (hp : strStarts env.pfx content = true)
    (hbl : checkBlacklists env author.shortId
      (parseCommandName env.pfx content) now = 0)
    (hlk : List.lookup (parseCommandName env.pfx content) env.commands
      = some info) :
    dispatchPrefixed env cd author content now =
      executeCommand env cd author content (parseCommandName env.pfx content)
        now := by
  simp [dispatchPrefixed, hp, hbl, hlk]

/-- A registered handler that returns: one invocation, then the cooldown
entry for `(author.id, cmdName)` is refreshed. -/
theorem executeCommand_success (env : DispatchEnv) (cd : Cooldowns)
    (author : Author) (content cmdName : Str) (now : Nat) (info : CmdInfo)
    (hlk : List.lookup cmdName env.commands = some info)
    (hcool : cooldownCheck cd author.id cmdName now = false)
    (hok : env.hb info.fn (commandArgs env.pfx content cmdName) = none) :
    executeCommand env cd author content cmdName now =
      ([Act.invoke info.fn (commandArgs env.pfx content cmdName)],
       cooldownUpdate cd author.id cmdName now) := by
  unfold executeCommand
  rw [hlk]
  simp only [hcool, Bool.false_eq_true, if_false, hok]

/-- A registered handler that raises: one invocation, then exactly one error
reply, and the cooldown table is left untouched. -/
theorem executeCommand_fail (env : DispatchEnv) (cd : Cooldowns)
    (author : Author) (content cmdName : Str) (now : Nat) (info : CmdInfo)
    (e : Str)
    (hlk : List.lookup cmdName env.commands = some info)
    (hcool : cooldownCheck cd author.id cmdName now = false)
    (he : env.hb info.fn (commandArgs env.pfx content cmdName) = some e) :
    executeCommand env cd author content cmdName now =
      ([Act.invoke info.fn (commandArgs env.pfx content cmdName),
        Act.reply (errorReply e env.tb)], cd) := by
  unfold executeCommand
  rw [hlk]
  simp only [hcool, Bool.false_eq_true, if_false, he]

/-- An active cooldown entry gates execution with a single reply. -/
theorem executeCommand_oncooldown (env : DispatchEnv) (cd : Cooldowns)
    (author : Author) (content cmdName : Str) (now : Nat) (info : CmdInfo)
    (hlk : List.lookup cmdName env.commands = some info)
    (hcool : cooldownCheck cd author.id cmdName now = true) :
    executeCommand env cd author content cmdName now =
      ([Act.reply (cooldownMsg (cooldownRemaining cd author.id cmdName now))],
       cd) := by
  unfold executeCommand
  rw [hlk]
  simp only [hcool, if_true]

/-- Every handler invocation in a dispatch trace comes from resolving the
parsed (lower-cased) command name in the registry. -/
theorem invoke_origin (env : DispatchEnv) (cd : Cooldowns) (author : Author)
    (content : Str) (now : Nat) (f : Nat) (a : Str)
    (h : Act.invoke f a ∈ (dispatchPrefixed env cd author content now).1) :
    ∃ info, List.lookup (parseCommandName env.pfx content) env.commands
      = some info ∧ info.fn = f := by
  unfold dispatchPrefixed at h
  by_cases hp : strStarts env.pfx content = true
  · simp only [hp, if_true] at h
    split at h
    · simp at h
    · split at h
      · split at h
        · simp at h
        · split at h
          · simp at h
          · unfold executeCommand at h
            split at h
            · simp at h
            · rename_i cmd hcmd
              split at h
              · simp at h
              · rcases hhb : env.hb cmd.fn
                  (commandArgs env.pfx content (parseCommandName env.pfx content))
                  with _ | e
                · simp only [hhb, List.mem_singleton] at h
                  rw [Act.invoke.injEq] at h
                  exact ⟨cmd, hcmd, h.1.symm⟩
                · simp only [hhb, List.mem_cons, List.mem_singleton] at h
                  rcases h with h | h
                  · rw [Act.invoke.injEq] at h
                    exact ⟨cmd, hcmd, h.1.symm⟩
                  · simp at h
      · simp at h
  · simp only [Bool.not_eq_true] at hp
    simp only [hp, Bool.false_eq_true, if_false] at h
    simp at h

/-- A sub-message with a `user` dict never raises out of
`_process_single_message`. -/
theorem processSingleMessage_no_raise (env : DispatchEnv) (cd : Cooldowns)
    (raw : RawMessage) (now : Nat) (u : RawUser)
    (hu : RawMessage.user raw = some u) :
    (processSingleMessage env cd raw now).2.2 = false := by
  rw [processSingleMessage_user_some env cd raw now u hu]

/-- Claim C7: for all users U and commands C, after `update(U,C)` at time t
the controller's `check(U,C)` returns true at any later time until the
5-unit window has elapsed since the update and false afterwards, and
`update` stores the entry's expiry as t + 5 (timestamped t). -/
theorem cooldown_window_behaviour (cd : Cooldowns) (u c : Str)
    (t later : Nat) (_h : t ≤ later) :
    cooldownCheck (cooldownUpdate cd u c t) u c later =
      decide (later - t < 5) ∧
    edFind (cooldownUpdate cd u c t) (cooldownKey u c) =
      some ⟨cooldownKey u c, t, t + 5⟩ := by
  constructor
  · unfold cooldownCheck edContains cooldownUpdate
    rw [edGet_edSet_self]
    by_cases h5 : later - t < 5
    · rw [if_pos (show later - t < cooldownWindow from h5)]
      simp [h5]
    · rw [if_neg (show ¬later - t < cooldownWindow from h5)]
      simp [h5]
  · unfold cooldownUpdate
    exact edFind_edSet_self cooldownWindow cooldownMaxLen cd
      (cooldownKey u c) (t + cooldownWindow) t

/-- Concrete instance of `cooldown_window_behaviour`. -/
theorem cooldown_window_behaviour_witness :
    0 ≤ 3 ∧
    (cooldownCheck (cooldownUpdate [] "u".data "c".data 0) "u".data "c".data 3
       = decide (3 - 0 < 5) ∧
     edFind (cooldownUpdate [] "u".data "c".data 0)
         (cooldownKey "u".data "c".data)
       = some ⟨cooldownKey "u".data "c".data, 0, 0 + 5⟩) :=
  ⟨by decide, cooldown_window_behaviour [] "u".data "c".data 0 3 (by decide)⟩

/-- Claim C8: for every alias A of a registration, resolving A and
resolving the canonical name both yield the registered descriptor (one
shared `cmd_info`). -/
theorem alias_resolves_same (r : Registry) (name : Str) (info : CmdInfo)
    (a : Str) (ha : a ∈ info.aliases) :
    List.lookup a (registerCommand r name info) = some info ∧
    List.lookup name (registerCommand r name info) = some info :=
  ⟨resolve_registerCommand r name info a (Or.inr ha),
   resolve_registerCommand r name info name (Or.inl rfl)⟩

/-- Concrete instance of `alias_resolves_same`. -/
theorem alias_resolves_same_witness :
    "p".data ∈ (CmdInfo.mk 0 [] ["p".data] false).aliases ∧
    (List.lookup "p".data
        (registerCommand [] "ping".data ⟨0, [], ["p".data], false⟩)
      = some ⟨0, [], ["p".data], false⟩ ∧
     List.lookup "ping".data
        (registerCommand [] "ping".data ⟨0, [], ["p".data], false⟩)
      = some ⟨0, [], ["p".data], false⟩) :=
  ⟨by decide,
   alias_resolves_same [] "ping".data ⟨0, [], ["p".data], false⟩ "p".data
     (by decide)⟩

/-- Claim C5, counterexample: for `". foo x"` with prefix `"."` the parsed
command name is `"foo"`, but the code's argument string (drop
`len(prefix + cmd_name)` characters, then strip) is `"o x"`, not the
`"foo x"` obtained by stripping the prefix and the command-name token from
the front and trimming, as the claim describes. -/
theorem parse_args_counterexample :
    parseCommandName ".".data ". foo x".data = "foo".data ∧
    commandArgs ".".data ". foo x".data
        (parseCommandName ".".data ". foo x".data) = "o x".data ∧
    specArgString ".".data ". foo x".data = "foo x".data ∧
    commandArgs ".".data ". foo x".data
        (parseCommandName ".".data ". foo x".data) ≠
      specArgString ".".data ". foo x".data := by decide

/-- Claim C5, amended: when the command-name token immediately follows the
prefix (content = prefix ++ token ++ rest with a nonempty whitespace-free
token and rest empty or starting with whitespace), the parsed command name
is the lower-cased token and the argument string is the rest of the content
whitespace-trimmed — which coincides with the spec's description of
stripping prefix and token from the front.  (In general the code drops
`len(prefix) + len(cmd_name)` characters, which the counterexample shows is
not token stripping.) -/
theorem parse_token_amended (pfx tok rest content : Str)
    (hc : content = pfx ++ tok ++ rest)
    (hne : tok ≠ [])
    (hnw : ∀ c ∈ tok, isWs c = false)
    (hrest : rest = [] ∨ ∃ d rs, rest = d :: rs ∧ isWs d = true) :
    parseCommandName pfx content = tok.map lowerChar ∧
    commandArgs pfx content (parseCommandName pfx content) = trimStr rest ∧
    specArgString pfx content = trimStr rest := by
  subst hc
  rw [List.append_assoc]
  have hws := wsplit_token tok rest hne hnw hrest
  have hparse : parseCommandName pfx (pfx ++ (tok ++ rest))
      = tok.map lowerChar := by
    unfold parseCommandName
    rw [strStarts_append, if_pos rfl, List.drop_left, hws]
  refine ⟨hparse, ?_, ?_⟩
  · unfold commandArgs
    rw [hparse, List.length_map, ← List.append_assoc]
    rw [show pfx.length + tok.length = (pfx ++ tok).length from
      (List.length_append pfx tok).symm]
    rw [List.drop_left]
  · simp only [specArgString, List.drop_left, hws, List.headD_cons,
      strStarts_append, if_true]

/-- Concrete instance of `parse_token_amended`, at the spec's own example
`".foo  bar baz"`. -/
theorem parse_token_amended_witness :
    ".foo  bar baz".data = ".".data ++ "foo".data ++ "  bar baz".data ∧
    (parseCommandName ".".data ".foo  bar baz".data
        = "foo".data.map lowerChar ∧
     commandArgs ".".data ".foo  bar baz".data
        (parseCommandName ".".data ".foo  bar baz".data)
        = trimStr "  bar baz".data ∧
     specArgString ".".data ".foo  bar baz".data = trimStr "  bar baz".data) :=
  ⟨by decide,
   parse_token_amended ".".data "foo".data "  bar baz".data
     ".foo  bar baz".data (by decide) (by decide) (by decide)
     (Or.inr ⟨' ', " bar baz".data, rfl, by decide⟩)⟩

/-- Claim C10: the registry stores names case-sensitively while dispatch
looks up the lower-cased parsed token, so a key holding an ASCII uppercase
letter is never the parsed command name, and a handler all of whose
registered keys hold an uppercase letter is never invoked by any
dispatched message. -/
theorem uppercase_key_unreachable (key : Str) (hk : hasUpper key = true) :
    (∀ pfx content, parseCommandName pfx content ≠ key) ∧
    (∀ env cd raw now f a,
       (∀ k i, (k, i) ∈ env.commands → i.fn = f → hasUpper k = true) →
       Act.invoke f a ∉ (processSingleMessage env cd raw now).1) := by
  constructor
  · intro pfx content heq
    have hno := parseCommandName_no_upper pfx content
    rw [heq, hk] at hno
    exact Bool.true_eq_false ▸ hno
  · intro env cd raw now f a hall hmem
    cases hu : RawMessage.user raw with
    | none =>
      rw [processSingleMessage_user_none env cd raw now hu] at hmem
      simp at hmem
    | some u =>
      rw [processSingleMessage_user_some env cd raw now u hu] at hmem
      obtain ⟨info, hinfo, hfn⟩ := invoke_origin env cd (normAuthor u)
        ((RawMessage.message raw).getD []) now f a hmem
      have hkmem := lookup_mem env.commands _ info hinfo
      have hup := hall _ info hkmem hfn
      have hno := parseCommandName_no_upper env.pfx
        ((RawMessage.message raw).getD [])
      rw [hup] at hno
      exact Bool.true_eq_false ▸ hno

/-- Concrete instance of `uppercase_key_unreachable`. -/
theorem uppercase_key_unreachable_witness :
    hasUpper "Foo".data = true ∧
    parseCommandName ".".data ".Foo bar".data ≠ "Foo".data :=
  ⟨by decide,
   (uppercase_key_unreachable "Foo".data (by decide)).1 ".".data
     ".Foo bar".data⟩

/-- Claim C1, counterexample: a prefixed message with an unregistered
command name from a user on no blacklist produces no reply at all — in
particular not the claimed single "Command not found." reply. -/
theorem command_not_found_counterexample :
    processSingleMessage basePingEnv [] nosuchMsg 0 = ([], [], false) ∧
    Act.reply notFoundMsg ∉ (processSingleMessage basePingEnv [] nosuchMsg 0).1 := by
  decide

/-- Claim C1, amended: a prefixed message whose parsed command name does not
resolve, sent by a user on none of the three blacklist tiers, produces no
action at all — the `"Command not found."` branch of `_execute_command` is
unreachable because `_process_single_message` only calls
`_execute_command` for registered names. -/
theorem unregistered_silently_dropped (env : DispatchEnv) (cd : Cooldowns)
    (raw : RawMessage) (u : RawUser) (now : Nat)
    (hu : RawMessage.user raw = some u)
    (hp : strStarts env.pfx ((RawMessage.message raw).getD []) = true)
    (hbl : checkBlacklists env (normAuthor u).shortId
      (parseCommandName env.pfx ((RawMessage.message raw).getD [])) now = 0)
    (hlk : List.lookup
      (parseCommandName env.pfx ((RawMessage.message raw).getD []))
      env.commands = none) :
    processSingleMessage env cd raw now = ([], cd, false) := by
  rw [processSingleMessage_user_some env cd raw now u hu]
  rw [dispatchPrefixed_unregistered env cd (normAuthor u) _ now hp
    (by rw [hbl]; decide) hlk]

/-- Concrete instance of `unregistered_silently_dropped`. -/
theorem unregistered_silently_dropped_witness :
    RawMessage.user nosuchMsg = some stdUser ∧
    processSingleMessage basePingEnv [] nosuchMsg 0 = ([], [], false) :=
  ⟨rfl, unregistered_silently_dropped basePingEnv [] nosuchMsg stdUser 0 rfl
    (by decide) (by decide) (by decide)⟩

/-- Claim C2, counterexample: in a type-3 bundle whose first sub-message is
malformed (no `user` dict) and whose second would dispatch a command, the
re-raise out of `_process_single_message` aborts the loop: the frame yields
no action at all, although the second sub-message processed alone invokes
its handler. -/
theorem batch_abort_counterexample :
    processFrame basePingEnv [] bundleMsg 0 = ([], []) ∧
    (processSingleMessage basePingEnv [] pingMsg 0).1 = [Act.invoke 0 []] := by
  decide

/-- Claim C2, amended: a bundle of N sub-messages is dispatched sequentially
in batch order, and when no sub-message raises (every sub-message has a
`user` dict) the result is exactly the independent in-order dispatch of all
N sub-messages; a raising sub-message, however, aborts the remaining
sub-messages of that batch (the failure is caught at frame level). -/
theorem batch_order_amended (env : DispatchEnv) (cd : Cooldowns)
    (ms : List RawMessage) (now : Nat)
    (h : ∀ m ∈ ms, (RawMessage.user m).isSome = true) :
    processBundle env cd ms now = bundleNoAbort env cd ms now := by
  induction ms generalizing cd with
  | nil => rfl
  | cons m t ih =>
    obtain ⟨u, hu⟩ := Option.isSome_iff_exists.1 (h m (List.mem_cons_self m t))
    have hnr := processSingleMessage_no_raise env cd m now u hu
    simp only [processBundle, bundleNoAbort, hnr, Bool.false_eq_true, if_false]
    rw [ih _ (fun m2 hm2 => h m2 (List.mem_cons_of_mem m hm2))]

/-- Concrete instance of `batch_order_amended`. -/
theorem batch_order_amended_witness :
    (∀ m ∈ [pingMsg], (RawMessage.user m).isSome = true) ∧
    processBundle basePingEnv [] [pingMsg] 0 =
      bundleNoAbort basePingEnv [] [pingMsg] 0 :=
  ⟨by decide, batch_order_amended basePingEnv [] [pingMsg] 0 (by decide)⟩

/-- Claim C3, counterexample: with the author's canonical id `"uid"` on the
silent blacklist but the short id `"sid"` clean, dispatch of `".ping"` still
invokes the handler — blacklist classification is keyed by
`author.short_id`, not by `author.id` (which keys the cooldown entry). -/
theorem identity_keys_counterexample :
    (normAuthor stdUser).id ∈ silentUidEnv.blSilent ∧
    processSingleMessage silentUidEnv [] pingMsg 0 =
      ([Act.invoke 0 []], [⟨"uid:ping".data, 0, 5⟩], false) := by
  decide

/-- Claim C3, amended: blacklist classification is keyed by
`author.shortId` (a silent-listed short id drops the event with no action,
whatever the canonical id), the cooldown gate and refresh are keyed by
`author.id`, and the reply rendering uses `author.shortId` only. -/
theorem identity_keys_amended :
    (∀ env cd raw u now, RawMessage.user raw = some u →
       (normAuthor u).shortId ∈ env.blSilent →
       processSingleMessage env cd raw now = ([], cd, false)) ∧
    (∀ env cd author content cmdName now info,
       List.lookup cmdName env.commands = some info →
       cooldownCheck cd author.id cmdName now = false →
       env.hb info.fn (commandArgs env.pfx content cmdName) = none →
       executeCommand env cd author content cmdName now =
         ([Act.invoke info.fn (commandArgs env.pfx content cmdName)],
          cooldownUpdate cd author.id cmdName now)) ∧
    (∀ env cd author content cmdName now info,
       List.lookup cmdName env.commands = some info →
       cooldownCheck cd author.id cmdName now = true →
       executeCommand env cd author content cmdName now =
         ([Act.reply (cooldownMsg (cooldownRemaining cd author.id cmdName now))],
          cd)) ∧
    (∀ a b text, a.shortId = b.shortId →
       renderReply a text = renderReply b text) := by
  refine ⟨?_, ?_, ?_, ?_⟩
  · intro env cd raw u now hu hsil
    rw [processSingleMessage_user_some env cd raw now u hu]
    by_cases hp : strStarts env.pfx ((RawMessage.message raw).getD []) = true
    · rw [dispatchPrefixed_silent env cd (normAuthor u) _ now hp
        (by simp [checkBlacklists, hsil])]
    · rw [dispatchPrefixed_no_pfx env cd (normAuthor u) _ now
        (by simpa using hp)]
  · intro env cd author content cmdName now info hlk hcool hok
    exact executeCommand_success env cd author content cmdName now info hlk
      hcool hok
  · intro env cd author content cmdName now info hlk hcool
    exact executeCommand_oncooldown env cd author content cmdName now info hlk
      hcool
  · intro a b text hab
    unfold renderReply
    rw [hab]

/-- Concrete instance of `identity_keys_amended`. -/
theorem identity_keys_amended_witness :
    RawMessage.user pingMsg = some stdUser ∧
    (normAuthor stdUser).shortId ∈ silentSidEnv.blSilent ∧
    processSingleMessage silentSidEnv [] pingMsg 0 = ([], [], false) :=
  ⟨rfl, by decide,
   identity_keys_amended.1 silentSidEnv [] pingMsg stdUser 0 rfl (by decide)⟩

/-- Claim C4: a raising handler is caught — the trace of the invocation is
exactly the handler invocation followed by one error reply embedding the
failure message and the traceback detail, the cooldown table is not
refreshed, and a following queued event is still processed (the bundle loop
continues); the cooldown entry is refreshed exactly when the handler
returns normally. -/
theorem handler_failure_contained (env : DispatchEnv) (cd : Cooldowns)
    (raw : RawMessage) (u : RawUser) (now : Nat)
    (content name args : Str) (info : CmdInfo) (e : Str)
    (rest : List RawMessage)
    (hu : RawMessage.user raw = some u)
    (hcontent : content = (RawMessage.message raw).getD [])
    (hname : name = parseCommandName env.pfx content)
    (hargs : args = commandArgs env.pfx content name)
    (hp : strStarts env.pfx content = true)
    (hbl : checkBlacklists env (normAuthor u).shortId name now = 0)
    (hreg : List.lookup name env.commands = some info)
    (hcool : cooldownCheck cd (normAuthor u).id name now = false)
    (hfail : env.hb info.fn args = some e) :
    processSingleMessage env cd raw now =
      ([Act.invoke info.fn args, Act.reply (errorReply e env.tb)], cd,
       false) ∧
    processBundle env cd (raw :: rest) now =
      (Act.invoke info.fn args :: Act.reply (errorReply e env.tb) ::
         (processBundle env cd rest now).1,
       (processBundle env cd rest now).2) ∧
    (∀ env2 cd2 author2 content2 name2 now2 info2,
       List.lookup name2 env2.commands = some info2 →
       cooldownCheck cd2 author2.id name2 now2 = false →
       env2.hb info2.fn (commandArgs env2.pfx content2 name2) = none →
       executeCommand env2 cd2 author2 content2 name2 now2 =
         ([Act.invoke info2.fn (commandArgs env2.pfx content2 name2)],
          cooldownUpdate cd2 author2.id name2 now2)) := by
  subst hcontent
  subst hname
  subst hargs
  have h1 : processSingleMessage env cd raw now =
      ([Act.invoke info.fn
          (commandArgs env.pfx ((RawMessage.message raw).getD [])
            (parseCommandName env.pfx ((RawMessage.message raw).getD []))),
        Act.reply (errorReply e env.tb)], cd, false) := by
    rw [processSingleMessage_user_some env cd raw now u hu]
    rw [dispatchPrefixed_exec env cd (normAuthor u) _ now info hp hbl hreg]
    rw [executeCommand_fail env cd (normAuthor u) _ _ now info e hreg hcool
      hfail]
  refine ⟨h1, ?_, ?_⟩
  · simp [processBundle, h1]
  · intro env2 cd2 author2 content2 name2 now2 info2 hlk2 hcool2 hok2
    exact executeCommand_success env2 cd2 author2 content2 name2 now2 info2
      hlk2 hcool2 hok2

/-- Concrete instance of `handler_failure_contained`. -/
theorem handler_failure_contained_witness :
    errEnv.hb pingInfo.fn [] = some "E".data ∧
    processSingleMessage errEnv [] pingMsg 0 =
      ([Act.invoke pingInfo.fn [], Act.reply (errorReply "E".data "TB".data)],
       [], false) :=
  ⟨rfl,
   (handler_failure_contained errEnv [] pingMsg stdUser 0 ".ping".data
     "ping".data [] pingInfo "E".data [] rfl rfl (by decide) (by decide)
     (by decide) (by decide) (by decide) (by decide) rfl).1⟩

/-- Claim C6: blacklist classification checks the silent set first, then the
notified set, then the per-command expiring set; and a silent-listed user's
dispatch of a registered command produces no reply and no handler
invocation even when the user is also on a lower-priority tier. -/
theorem blacklist_priority (env : DispatchEnv) (cd : Cooldowns)
    (uid cmd : Str) (now : Nat) :
    (uid ∈ env.blSilent → checkBlacklists env uid cmd now = 1) ∧
    (uid ∉ env.blSilent → uid ∈ env.blNotified →
       checkBlacklists env uid cmd now = 2) ∧
    (uid ∉ env.blSilent → uid ∉ env.blNotified →
       uid ∈ (edGet cmdBlacklistAge env.blCommand cmd now).getD [] →
       checkBlacklists env uid cmd now = 3) ∧
    (uid ∉ env.blSilent → uid ∉ env.blNotified →
       uid ∉ (edGet cmdBlacklistAge env.blCommand cmd now).getD [] →
       checkBlacklists env uid cmd now = 0) ∧
    (∀ raw u info, RawMessage.user raw = some u →
       (normAuthor u).shortId ∈ env.blSilent →
       List.lookup (parseCommandName env.pfx ((RawMessage.message raw).getD []))
         env.commands = some info →
       processSingleMessage env cd raw now = ([], cd, false)) := by
  refine ⟨?_, ?_, ?_, ?_, ?_⟩
  · intro h1
    simp [checkBlacklists, h1]
  · intro h1 h2
    simp [checkBlacklists, h1, h2]
  · intro h1 h2 h3
    simp [checkBlacklists, h1, h2, h3]
  · intro h1 h2 h3
    simp [checkBlacklists, h1, h2, h3]
  · intro raw u info hu hsil _hreg
    rw [processSingleMessage_user_some env cd raw now u hu]
    by_cases hp : strStarts env.pfx ((RawMessage.message raw).getD []) = true
    · rw [dispatchPrefixed_silent env cd (normAuthor u) _ now hp
        (by simp [checkBlacklists, hsil])]
    · rw [dispatchPrefixed_no_pfx env cd (normAuthor u) _ now
        (by simpa using hp)]

/-- Concrete instance of `blacklist_priority`: a user on both the silent and
the notified tier is classified silent and dispatch produces nothing. -/
theorem blacklist_priority_witness :
    "sid".data ∈ bothTiersEnv.blSilent ∧
    checkBlacklists bothTiersEnv "sid".data "ping".data 0 = 1 ∧
    processSingleMessage bothTiersEnv [] pingMsg 0 = ([], [], false) :=
  ⟨by decide,
   (blacklist_priority bothTiersEnv [] "sid".data "ping".data 0).1
     (by decide),
   (blacklist_priority bothTiersEnv [] "sid".data "ping".data 0).2.2.2.2
     pingMsg stdUser pingInfo rfl (by decide) (by decide)⟩

/-- Claim C9: the very first frame after connection establishment is
discarded unconditionally — it produces no action and leaves the cooldown
state untouched (only the discard flag flips) — and every frame arriving
with the flag set is processed normally by frame type. -/
theorem first_frame_discarded :
    (∀ (env : DispatchEnv) (cd : Cooldowns) (raw : RawMessage) (now : Nat),
       handleMessage env ⟨false, cd⟩ raw now = ([], ⟨true, cd⟩)) ∧
    (∀ (env : DispatchEnv) (cd : Cooldowns) (f : RawMessage) (t : Nat)
       (rest : List (RawMessage × Nat)),
       runFrames env ⟨false, cd⟩ ((f, t) :: rest) =
         runFrames env ⟨true, cd⟩ rest) ∧
    (∀ (env : DispatchEnv) (cd : Cooldowns) (raw : RawMessage) (now : Nat),
       handleMessage env ⟨true, cd⟩ raw now =
         ((processFrame env cd raw now).1,
          ⟨true, (processFrame env cd raw now).2⟩)) :=
  ⟨fun _ _ _ _ => rfl, fun _ _ _ _ _ => rfl, fun _ _ _ _ => rfl⟩
